import Mathlib

/-!
Shallow embedding of the blogging-platform REST API (Node.js / Express /
Mongoose) for verification.

Sources embedded here:
  - src/models/Category.js   (category schema and slug pre-save hook)
  - src/models/Comment.js    (comment schema)
  - src/unnamed/part_001     (post schema)
  - src/unnamed/part_002     (comments router, lines 1-383; posts router,
                              lines 384-926)
  - src/routes/users.js      (users router)

Mongo ObjectIds are modelled as natural numbers; a document collection is a
list of records.  Mongo guarantees `_id` uniqueness, which appears below as
`Nodup` hypotheses on the list of ids.  Read-modify-write handlers become
state-passing functions `DB -> DB x Response`; pure read handlers also return
the state to make the absence of writes an explicit part of the model.
-/

namespace Blog

/-- Post status enum from the post schema (src/unnamed/part_001, lines 38-42):
`enum: ['draft', 'published', 'archived']`. -/
inductive Status
  | draft
  | published
  | archived
deriving DecidableEq, Repr

/-- Post document (src/unnamed/part_001).  `createdAt` comes from
`timestamps: true`. -/
structure Post where
  id : Nat
  title : String
  content : String
  excerpt : String
  author : Nat
  category : Nat
  tags : List String
  featuredImage : String
  status : Status
  viewCount : Nat
  isFeatured : Bool
  createdAt : Nat
deriving DecidableEq, Repr

/-- Comment document (src/models/Comment.js). -/
structure Comment where
  id : Nat
  text : String
  post : Nat
  author : Nat
  parentComment : Option Nat
  replies : List Nat
  likes : List Nat
  isApproved : Bool
  isEdited : Bool
  createdAt : Nat
deriving DecidableEq, Repr

/-- Category document (src/models/Category.js). -/
structure Category where
  id : Nat
  name : String
  description : String
  slug : String
  isActive : Bool
deriving DecidableEq, Repr

/-- User document (src/models/User.js is not needed beyond these fields;
`role` holds the role name, `user` or `admin`). -/
structure User where
  id : Nat
  name : String
  email : String
  role : String
  bio : String
  avatar : String
  isActive : Bool
  createdAt : Nat
deriving DecidableEq, Repr

/-- Database state: one list per collection, plus the allocator for fresh
comment ids (Mongo generates a fresh ObjectId for every insert; we model
freshness with a counter). -/
structure DB where
  posts : List Post
  comments : List Comment
  categories : List Category
  users : List User
  nextCommentId : Nat
deriving Repr

/-! ### Query-parameter helpers -/

/-- Models `parseInt(req.query.x, 10) || d`: an absent or unparsable value is
`none` and falls back to the default, and so does `0` (falsy in JS). -/
def intOrDefault (q : Option Nat) (d : Nat) : Nat :=
  match q with
  | none => d
  | some n => if n = 0 then d else n

/-- Models `.skip((page - 1) * limit).limit(limit)` applied to a query result
(src/unnamed/part_002, lines 399 and 434-435). -/
def paginate {α : Type} (l : List α) (page limit : Nat) : List α :=
  (l.drop ((page - 1) * limit)).take limit

/-- Models `Math.ceil(total / limit)` (src/unnamed/part_002, line 445); for
naturals with `0 < limit` this is exactly `(total + limit - 1) / limit`. -/
def pagesOf (total limit : Nat) : Nat :=
  (total + limit - 1) / limit

/-- Pagination block of the response envelope:
`{ current: page, pages: Math.ceil(total/limit), total }`. -/
structure Pagination where
  current : Nat
  pages : Nat
  total : Nat
deriving DecidableEq, Repr

/-- Insertion of an element into a list sorted by `le` (used by `sortBy`). -/
def insertSorted {α : Type} (le : α → α → Bool) (a : α) : List α → List α
  | [] => [a]
  | b :: l => if le a b then a :: b :: l else b :: insertSorted le a l

/-- Executable model of the store's sort (`.sort({ ... })` on queries and
`$sort` in the aggregation pipeline): a sort by the given comparator. -/
def sortBy {α : Type} (le : α → α → Bool) : List α → List α
  | [] => []
  | a :: l => insertSorted le a (sortBy le l)

/-! ### Posts router (src/unnamed/part_002, lines 384-926) -/

/-- Case-insensitive substring match, modelling
`{ $regex: needle, $options: 'i' }` on a string field. -/
def containsCI (hay needle : String) : Bool :=
  decide (needle.toLower.data <:+: hay.toLower.data)

/-- Models `Category.findOne({ $or: [{ _id: q }, { name: q }] })` from the
post list handler (lines 405-410): the query string matches a category by id
or by exact name. -/
def findCategoryIdOrName (cats : List Category) (q : String) : Option Category :=
  cats.find? (fun c => toString c.id = q || c.name = q)

/-- Query parameters accepted by `GET /api/posts`. -/
structure PostsQuery where
  page : Option Nat
  limit : Option Nat
  category : Option String
  search : Option String
deriving Repr

/-- The Mongo query built by `GET /api/posts` (lines 401-421):
`status: 'published'` always; `category` only when the category query
parameter resolves to a stored category; `$or` over title/content regexes
when a search string is present. -/
def postQueryFilter (db : DB) (q : PostsQuery) (p : Post) : Bool :=
  decide (p.status = Status.published)
  && (match q.category with
      | none => true
      | some cq =>
        match findCategoryIdOrName db.categories cq with
        | some c => decide (p.category = c.id)
        | none => true)
  && (match q.search with
      | none => true
      | some s => containsCI p.title s || containsCI p.content s)

/-- Sort comparator for `.sort({ createdAt: -1 })` on posts. -/
def byCreatedAtDesc (a b : Post) : Bool :=
  decide (b.createdAt ≤ a.createdAt)

/-- Response of `GET /api/posts`. -/
structure PostsListResponse where
  count : Nat
  pagination : Pagination
  posts : List Post
deriving Repr

/-- Handler for `GET /api/posts` (lines 395-481).  It performs no write, so
the returned state is the input state. -/
def getPosts (db : DB) (q : PostsQuery) : DB × PostsListResponse :=
  let page := intOrDefault q.page 1
  let limit := intOrDefault q.limit 10
  let filtered := db.posts.filter (postQueryFilter db q)
  let sorted := sortBy byCreatedAtDesc filtered
  let posts := paginate sorted page limit
  (db, { count := posts.length
       , pagination := { current := page, pages := pagesOf filtered.length limit
                       , total := filtered.length }
       , posts := posts })

/-- Result of `GET /api/posts/:id`. -/
inductive GetPostResult
  | notFound
  | ok (post : Post)
deriving DecidableEq, Repr

/-- Handler for `GET /api/posts/:id` (lines 486-547): `findById` (no status
filter), 404 when absent, otherwise `viewCount += 1` followed by `save()`,
and the incremented document is returned. -/
def getPostById (db : DB) (id : Nat) : DB × GetPostResult :=
  match db.posts.find? (fun p => decide (p.id = id)) with
  | none => (db, .notFound)
  | some p =>
    let p' := { p with viewCount := p.viewCount + 1 }
    ({ db with posts := db.posts.map (fun q => if q.id = p.id then p' else q) },
     .ok p')

/-- Result of `GET /api/posts/category/:categoryId`. -/
inductive ByCategoryResult
  | notFound
  | ok (category : Category) (count : Nat) (pagination : Pagination) (posts : List Post)
deriving Repr

/-- Handler for `GET /api/posts/category/:categoryId` (lines 756-837):
404 when the category is absent; otherwise the posts with that category and
`status: 'published'`, sorted by `createdAt` descending and paginated. -/
def getPostsByCategory (db : DB) (categoryId : Nat) (qpage qlimit : Option Nat) :
    ByCategoryResult :=
  match db.categories.find? (fun c => decide (c.id = categoryId)) with
  | none => .notFound
  | some cat =>
    let page := intOrDefault qpage 1
    let limit := intOrDefault qlimit 10
    let filtered := db.posts.filter
      (fun p => decide (p.category = categoryId) && decide (p.status = Status.published))
    let sorted := sortBy byCreatedAtDesc filtered
    let posts := paginate sorted page limit
    .ok cat posts.length
      { current := page, pages := pagesOf filtered.length limit, total := filtered.length }
      posts

/-! ### Trending aggregation (lines 842-924) -/

/-- Entry produced by the trending pipeline after the `$lookup` on comments
and `$addFields: { commentsCount: { $size: '$comments' } }`. -/
structure TrendingEntry where
  post : Post
  commentsCount : Nat
deriving DecidableEq, Repr

/-- The `$lookup` stage joining a post with its comments
(`localField: '_id', foreignField: 'post'`). -/
def lookupComments (comments : List Comment) (p : Post) : List Comment :=
  comments.filter (fun c => decide (c.post = p.id))

/-- Comparator realising `$sort: { commentsCount: -1, viewCount: -1 }`. -/
def trendingLe (a b : TrendingEntry) : Bool :=
  decide (b.commentsCount < a.commentsCount)
  || (decide (a.commentsCount = b.commentsCount)
      && decide (b.post.viewCount ≤ a.post.viewCount))

/-- The trending aggregation pipeline (lines 844-908): `$match` on
`status: 'published'`, `$lookup` of comments with `$addFields` of their
count, `$sort: { commentsCount: -1, viewCount: -1 }`, `$limit: 5`.  The
author/category `$lookup`s only denormalise display fields and are kept
inside `post`. -/
def trendingPipeline (db : DB) : List TrendingEntry :=
  let matched := db.posts.filter (fun p => decide (p.status = Status.published))
  let withCounts := matched.map
    (fun p => { post := p, commentsCount := (lookupComments db.comments p).length })
  (sortBy trendingLe withCounts).take 5

/-! ### Express route dispatch for the posts router -/

/-- One segment of an Express route pattern: a literal or a `:name` param. -/
inductive Seg
  | lit (s : String)
  | param (name : String)
deriving DecidableEq, Repr

/-- Handlers reachable through GET on the posts router. -/
inductive PostsHandler
  | getPosts
  | getPostById
  | getPostsByCategory
  | trendingPosts
deriving DecidableEq, Repr

/-- The GET routes of the posts router in registration order
(src/unnamed/part_002: line 395 `'/'`, line 486 `'/:id'`, line 756
`'/category/:categoryId'`, line 842 `'/trending'`). -/
def postsGetRoutes : List (List Seg × PostsHandler) :=
  [ ([], .getPosts)
  , ([.param "id"], .getPostById)
  , ([.lit "category", .param "categoryId"], .getPostsByCategory)
  , ([.lit "trending"], .trendingPosts) ]

/-- Matches a route pattern against the path segments of a request,
returning the parameter bindings on success (Express semantics: a literal
segment must be equal, a param segment captures any single segment). -/
def matchSegs : List Seg → List String → Option (List (String × String))
  | [], [] => some []
  | [], _ :: _ => none
  | _ :: _, [] => none
  | Seg.lit s :: ps, x :: xs => if s = x then matchSegs ps xs else none
  | Seg.param n :: ps, x :: xs => (matchSegs ps xs).map (fun bs => (n, x) :: bs)

/-- Express dispatch: the first registered route whose pattern matches the
path wins. -/
def dispatch {H : Type} (routes : List (List Seg × H)) (path : List String) :
    Option (H × List (String × String)) :=
  match routes with
  | [] => none
  | (pat, h) :: rest =>
    match matchSegs pat path with
    | some bs => some (h, bs)
    | none => dispatch rest path

/-! ### Category slug generation (src/models/Category.js, lines 29-35) -/

/-- A character the regex class `[a-z0-9]` accepts (the name has already
been lowercased when the class is applied). -/
def isAlnumLower (c : Char) : Bool :=
  (decide ('a' ≤ c) && decide (c ≤ 'z')) || (decide ('0' ≤ c) && decide (c ≤ '9'))

/-- First half of `replace(/[^a-z0-9]+/g, '-')`: every character outside
`[a-z0-9]` becomes a hyphen. -/
def dashify (c : Char) : Char :=
  if isAlnumLower c then c else '-'

/-- Second half of `replace(/[^a-z0-9]+/g, '-')`: a maximal run of hyphens
(one per replaced character) collapses to a single hyphen, because the regex
consumes each non-alphanumeric run greedily. -/
def collapseDashes : List Char → List Char
  | [] => []
  | [c] => [c]
  | a :: b :: rest =>
    if a = '-' ∧ b = '-' then collapseDashes (b :: rest)
    else a :: collapseDashes (b :: rest)

/-- Removes a single leading hyphen, the `^-` alternative of
`replace(/(^-|-$)/g, '')`. -/
def dropLeadDash (l : List Char) : List Char :=
  match l with
  | [] => []
  | c :: rest => if c = '-' then rest else c :: rest

/-- Models `replace(/(^-|-$)/g, '')`: the regex removes one hyphen at the
start and one at the end (the two removals are independent, so the order
they are applied in does not matter). -/
def stripEdgeDashes (l : List Char) : List Char :=
  dropLeadDash ((dropLeadDash l.reverse).reverse)

/-- The slug computation of the pre-save hook (line 33):
`name.toLowerCase().replace(/[^a-z0-9]+/g, '-').replace(/(^-|-$)/g, '')`.
Lowercasing is modelled per character with `Char.toLower`, which agrees with
the JS `toLowerCase()` on the ASCII range. -/
def slugify (name : String) : String :=
  String.mk (stripEdgeDashes (collapseDashes ((name.data.map Char.toLower).map dashify)))

/-- The `pre('save')` hook (lines 29-35): the slug is recomputed exactly when
`isModified('name')` holds, otherwise the hook is a no-op. -/
def saveCategory (c : Category) (nameModified : Bool) : Category :=
  if nameModified then { c with slug := slugify c.name } else c

/-! ### Comments router (src/unnamed/part_002, lines 1-383) -/

/-- Result of `POST /api/comments`. -/
inductive CreateCommentResult
  | postNotFound
  | parentNotFound
  | created (c : Comment)
deriving DecidableEq, Repr

/-- Handler for `POST /api/comments` (lines 87-171): 404 if the post does not
exist; 404 if a `parentComment` was supplied but does not exist; otherwise
the comment is created (fresh id, `parentComment` as supplied or null) and,
for a reply, `$push`ed onto the parent's `replies` array. -/
def createComment (db : DB) (text : String) (postId authorId : Nat)
    (parentComment : Option Nat) : DB × CreateCommentResult :=
  match db.posts.find? (fun p => decide (p.id = postId)) with
  | none => (db, .postNotFound)
  | some _ =>
    let c : Comment :=
      { id := db.nextCommentId, text := text, post := postId, author := authorId
      , parentComment := parentComment, replies := [], likes := []
      , isApproved := true, isEdited := false, createdAt := 0 }
    match parentComment with
    | none =>
      ({ db with comments := db.comments ++ [c], nextCommentId := db.nextCommentId + 1 },
       .created c)
    | some pc =>
      match db.comments.find? (fun d => decide (d.id = pc)) with
      | none => (db, .parentNotFound)
      | some _ =>
        let withChild := db.comments ++ [c]
        ({ db with
             comments := withChild.map
               (fun d => if d.id = pc then { d with replies := d.replies ++ [c.id] } else d)
           , nextCommentId := db.nextCommentId + 1 },
         .created c)

/-- Handler for `PUT /api/comments/:id` (lines 176-225).  The `isAuthor`
middleware has already loaded the comment `c` (`req.resource`); the handler
sets `text`, flips `isEdited`, and saves. -/
def updateComment (db : DB) (c : Comment) (text : String) : DB :=
  let comments := db.comments.map
    (fun d => if d.id = c.id then { c with text := text, isEdited := true } else d)
  { db with comments := comments }

/-- Handler for `DELETE /api/comments/:id` (lines 230-254).  The comment `c`
is `req.resource`.  If it has a parent, its id is `$pull`ed from the parent's
`replies` array; then the comment itself is removed.  Nothing else is
touched: in particular the comment's own replies are not deleted. -/
def deleteComment (db : DB) (c : Comment) : DB :=
  let afterPull :=
    match c.parentComment with
    | some pc =>
      db.comments.map
        (fun (d : Comment) =>
          if d.id = pc
          then { d with replies := d.replies.filter (fun r => decide (r ≠ c.id)) }
          else d)
    | none => db.comments
  let comments := afterPull.filter (fun d => decide (d.id ≠ c.id))
  { db with comments := comments }

/-- The like-toggle on a likes array (lines 269-277):
`userLiked = likes.includes(user)`; when liked, keep the entries whose id
differs from the user; otherwise push the user. -/
def toggleLikes (likes : List Nat) (userId : Nat) : List Nat :=
  if likes.contains userId then likes.filter (fun i => decide (i ≠ userId))
  else likes ++ [userId]

/-- Result of `POST /api/comments/:id/like`: the resulting likes count and
the boolean `isLiked` state. -/
inductive LikeResult
  | notFound
  | ok (likes : Nat) (isLiked : Bool)
deriving DecidableEq, Repr

/-- Handler for `POST /api/comments/:id/like` (lines 259-296): 404 when the
comment is absent; otherwise toggle the principal in `likes`, save, and
answer with the new count and `isLiked = !userLiked`. -/
def likeComment (db : DB) (commentId userId : Nat) : DB × LikeResult :=
  match db.comments.find? (fun c => decide (c.id = commentId)) with
  | none => (db, .notFound)
  | some c =>
    let userLiked := c.likes.contains userId
    let c' := { c with likes := toggleLikes c.likes userId }
    ({ db with comments := db.comments.map (fun d => if d.id = c.id then c' else d) },
     .ok c'.likes.length (!userLiked))

/-- Handler for `PATCH /api/comments/:id/approve` (lines 301-333): 404 when
the comment is absent (modelled as a no-op on the state); otherwise set
`isApproved` and save. -/
def approveComment (db : DB) (commentId : Nat) (isApproved : Bool) : DB :=
  match db.comments.find? (fun c => decide (c.id = commentId)) with
  | none => db
  | some c =>
    let comments := db.comments.map
      (fun d => if d.id = c.id then { c with isApproved := isApproved } else d)
    { db with comments := comments }

/-! ### Authorization guard and post update (PUT /api/posts/:id) -/

/-- Outcome of the ownership guard. -/
inductive Authz (α : Type)
  | notFound
  | forbidden
  | ok (resource : α)
deriving DecidableEq, Repr

/-- Modelled from the spec: the `isAuthor` ownership-check middleware lives
in src/middleware/auth.js, which is not among the provided sources (only its
callers are).  Per the spec (§4.2 Authorization Guard) it loads the resource
by id, answers not-found when the resource is absent, allows when the
resource's author equals the principal's id or the principal's role is
admin, answers forbidden otherwise, and attaches the loaded resource for the
handler to reuse. -/
def isAuthorPost (db : DB) (principalId : Nat) (principalRole : String)
    (postId : Nat) : Authz Post :=
  match db.posts.find? (fun p => decide (p.id = postId)) with
  | none => .notFound
  | some p =>
    if p.author = principalId ∨ principalRole = "admin" then .ok p else .forbidden

/-- Body of a `PUT /api/posts/:id` request; `none` means the field was not
supplied. -/
structure PostUpdate where
  title : Option String
  content : Option String
  excerpt : Option String
  category : Option String
  tags : Option (List String)
  featuredImage : Option String
  status : Option Status
deriving Repr

/-- Models `Category.findOne({ $or: [{ _id: q }, { name: regex ^q$ i }] })`
from the post create/update handlers (lines 578-583 and 670-675): id match
or case-insensitive whole-name match. -/
def findCategoryIdOrNameCI (cats : List Category) (q : String) : Option Category :=
  cats.find? (fun c => toString c.id = q || c.name.toLower = q.toLower)

/-- Field updates of the PUT handler (lines 686-692): each supplied field
overwrites the stored one, every other field is kept. -/
def applyPostFields (p : Post) (u : PostUpdate) : Post :=
  { p with
      title := u.title.getD p.title
    , content := u.content.getD p.content
    , excerpt := u.excerpt.getD p.excerpt
    , tags := u.tags.getD p.tags
    , featuredImage := u.featuredImage.getD p.featuredImage
    , status := u.status.getD p.status }

/-- Category resolution of the PUT handler (lines 669-684): when a category
string is supplied it must resolve, else the request fails with 400. -/
def applyPostUpdate (db : DB) (p : Post) (u : PostUpdate) : Option Post :=
  match u.category with
  | none => some (applyPostFields p u)
  | some cq =>
    match findCategoryIdOrNameCI db.categories cq with
    | none => none
    | some cat => some (applyPostFields { p with category := cat.id } u)

/-- Result of `PUT /api/posts/:id`. -/
inductive UpdatePostResult
  | notFound
  | forbidden
  | categoryNotFound
  | ok (post : Post)
deriving DecidableEq, Repr

/-- Handler for `PUT /api/posts/:id` (lines 643-730) composed with the
`protect`/`isAuthor(Post)` middleware chain: not-found and forbidden
short-circuit before any write; on success the updated post is saved. -/
def updatePost (db : DB) (principalId : Nat) (principalRole : String)
    (postId : Nat) (u : PostUpdate) : DB × UpdatePostResult :=
  match isAuthorPost db principalId principalRole postId with
  | .notFound => (db, .notFound)
  | .forbidden => (db, .forbidden)
  | .ok p =>
    match applyPostUpdate db p u with
    | none => (db, .categoryNotFound)
    | some p' =>
      ({ db with posts := db.posts.map (fun q => if q.id = p.id then p' else q) },
       .ok p')

/-! ### Users router (src/routes/users.js) -/

/-- Sort comparator for `.sort({ createdAt: -1 })` on users. -/
def byUserCreatedAtDesc (a b : User) : Bool :=
  decide (b.createdAt ≤ a.createdAt)

/-- Response of `GET /api/users`. -/
structure UsersListResponse where
  count : Nat
  pagination : Pagination
  users : List User
deriving Repr

/-- Handler for `GET /api/users` (src/routes/users.js, lines 44-88): all
users sorted by `createdAt` descending, paginated with the same
page/limit/default scheme as the posts list; `total` counts every user. -/
def getUsers (db : DB) (qpage qlimit : Option Nat) : UsersListResponse :=
  let page := intOrDefault qpage 1
  let limit := intOrDefault qlimit 10
  let sorted := sortBy byUserCreatedAtDesc db.users
  let users := paginate sorted page limit
  { count := users.length
  , pagination := { current := page, pages := pagesOf db.users.length limit
                  , total := db.users.length }
  , users := users }

/-! ### The comment-operation step relation (for reachability invariants) -/

/-- One application of a comment-router operation to the database: create,
update, delete, like-toggle, or approve (src/unnamed/part_002, lines
87-333).  Update and delete go through the `isAuthor` middleware, so their
target comment is a loaded `req.resource`, i.e. a member of the state. -/
inductive CommentStep : DB → DB → Prop
  | create (db : DB) (text : String) (postId authorId : Nat) (parent : Option Nat) :
      CommentStep db (createComment db text postId authorId parent).1
  | update (db : DB) (c : Comment) (text : String) (h : c ∈ db.comments) :
      CommentStep db (updateComment db c text)
  | delete (db : DB) (c : Comment) (h : c ∈ db.comments) :
      CommentStep db (deleteComment db c)
  | like (db : DB) (commentId userId : Nat) :
      CommentStep db (likeComment db commentId userId).1
  | approve (db : DB) (commentId : Nat) (b : Bool) :
      CommentStep db (approveComment db commentId b)

/-- The ancestor relation induced by `parentComment` pointers:
`commentAncestor db a i` holds when following parent pointers from the
comment with id `i` reaches id `a`. -/
def parentOf (db : DB) (i : Nat) : Option Nat :=
  match db.comments.find? (fun c => decide (c.id = i)) with
  | some c => c.parentComment
  | none => none

/-- Proper ancestorship along `parentComment` pointers. -/
inductive commentAncestor (db : DB) : Nat → Nat → Prop
  | parent {i p : Nat} : parentOf db i = some p → commentAncestor db p i
  | step {i p a : Nat} :
      parentOf db i = some p → commentAncestor db a p → commentAncestor db a i

/-- Inductive invariant of the comment store: every comment's id is below
the allocator, and every parent pointer goes to a strictly smaller id (the
parent was created earlier). -/
def CommentInv (db : DB) : Prop :=
  ∀ c ∈ db.comments,
    c.id < db.nextCommentId ∧ ∀ pc, c.parentComment = some pc → pc < c.id

/-! ## Helper lemmas -/

/-- Looking a record up by key finds exactly the member with that key when
keys are duplicate-free (the Mongo `_id` uniqueness guarantee). -/
theorem find?_key_of_mem {α : Type} (key : α → Nat) :
    ∀ (l : List α) (x : α), (l.map key).Nodup → x ∈ l →
      l.find? (fun y => decide (key y = key x)) = some x := by
  intro l
  induction l with
  | nil => intro x _ hx; cases hx
  | cons a t ih =>
    intro x hnd hx
    rw [List.map_cons, List.nodup_cons] at hnd
    by_cases ha : key a = key x
    · have hxa : x = a := by
        rcases List.mem_cons.mp hx with h | hxt
        · exact h
        · exact absurd (ha ▸ List.mem_map_of_mem key hxt) hnd.1
      subst hxa
      simp [List.find?_cons, ha]
    · have hxt : x ∈ t := by
        rcases List.mem_cons.mp hx with h | hxt
        · exact absurd (h ▸ rfl) ha
        · exact hxt
      have hfa : (decide (key a = key x)) = false := decide_eq_false ha
      rw [List.find?_cons, hfa]
      exact ih x hnd.2 hxt

/-- Removing the record with a given key from a duplicate-free collection
shrinks it by exactly one. -/
theorem length_filter_ne_key {α : Type} (key : α → Nat) :
    ∀ (l : List α) (i : Nat), (l.map key).Nodup → i ∈ l.map key →
      (l.filter (fun d => decide (key d ≠ i))).length + 1 = l.length := by
  intro l
  induction l with
  | nil => intro i _ hi; cases hi
  | cons a t ih =>
    intro i hnd hi
    rw [List.map_cons, List.nodup_cons] at hnd
    by_cases ha : key a = i
    · have htid : ∀ d ∈ t, (decide (key d ≠ i)) = true := by
        intro d hd
        refine decide_eq_true (fun hdi => hnd.1 ?_)
        rw [ha, ← hdi]
        exact List.mem_map_of_mem key hd
      have hself : t.filter (fun d => decide (key d ≠ i)) = t := List.filter_eq_self.mpr htid
      have hfa : (decide (key a ≠ i)) = false := by simp [ha]
      rw [List.filter_cons, hfa, if_neg (by simp), hself, List.length_cons]
    · have hit : i ∈ t.map key := by
        rcases List.mem_cons.mp hi with h | h
        · exact absurd h.symm ha
        · exact h
      have hfa : (decide (key a ≠ i)) = true := by simp [ha]
      rw [List.filter_cons, hfa, if_pos rfl, List.length_cons, List.length_cons]
      have hih := ih i hnd.2 hit
      omega

/-! ### Ceiling-division and pagination helpers -/

theorem pagesOf_zero (L : Nat) (hL : 0 < L) : pagesOf 0 L = 0 := by
  unfold pagesOf
  exact Nat.div_eq_of_lt (by omega)

theorem pagesOf_succ (n L : Nat) (hL : 0 < L) (hn : 0 < n) :
    pagesOf n L = pagesOf (n - L) L + 1 := by
  unfold pagesOf
  rcases le_or_lt n L with hle | hlt
  · have h1 : (n + L - 1) / L = 1 := by
      apply Nat.div_eq_of_lt_le
      · omega
      · omega
    have h2 : n - L = 0 := by omega
    have h3 : (0 + L - 1) / L = 0 := Nat.div_eq_of_lt (by omega)
    rw [h1, h2, h3]
  · have h1 : (n + L - 1) / L = ((n + L - 1) - L) / L + 1 :=
      Nat.div_eq_sub_div hL (by omega)
    have h2 : (n + L - 1) - L = (n - L) + L - 1 := by omega
    rw [h1, h2]

/-- The ceiling property `T ≤ pages * L`: every record fits in the pages. -/
theorem le_pagesOf_mul (T L : Nat) (hL : 0 < L) : T ≤ pagesOf T L * L := by
  rcases Nat.eq_zero_or_pos T with h0 | hT
  · subst h0; exact Nat.zero_le _
  · unfold pagesOf
    have he : T + L - 1 = (T - 1) + L := by omega
    rw [he, Nat.add_div_right _ hL]
    have h1 := Nat.div_add_mod (T - 1) L
    have h2 : (T - 1) % L < L := Nat.mod_lt _ hL
    rw [Nat.add_mul, one_mul, Nat.mul_comm]
    set k := L * ((T - 1) / L) with hk
    set b := (T - 1) % L with hb
    omega

/-- The ceiling property `(pages - 1) * L < T`: the last page is needed. -/
theorem pagesOf_pred_mul_lt (T L : Nat) (hL : 0 < L) (hT : 0 < T) :
    (pagesOf T L - 1) * L < T := by
  unfold pagesOf
  have he : T + L - 1 = (T - 1) + L := by omega
  rw [he, Nat.add_div_right _ hL]
  have h1 := Nat.div_add_mod (T - 1) L
  have h2 : (T - 1) % L < L := Nat.mod_lt _ hL
  simp only [Nat.add_sub_cancel]
  rw [Nat.mul_comm]
  set k := L * ((T - 1) / L) with hk
  set b := (T - 1) % L with hb
  omega

/-- The pages of a list, concatenated in order, reassemble the list exactly:
no duplicates and no gaps. -/
theorem flatten_paginate {α : Type} (L : Nat) (hL : 0 < L) :
    ∀ (P : Nat) (l : List α), P = pagesOf l.length L →
      ((List.range P).map (fun k => (l.drop (k * L)).take L)).flatten = l := by
  intro P
  induction P with
  | zero =>
    intro l h
    have hlen : l.length = 0 := by
      by_contra hne
      have hpos : 0 < l.length := Nat.pos_of_ne_zero hne
      have := pagesOf_succ l.length L hL hpos
      omega
    rw [List.eq_nil_of_length_eq_zero hlen]
    rfl
  | succ P ih =>
    intro l h
    have hlen : 0 < l.length := by
      by_contra hc
      have h0 : l.length = 0 := by omega
      rw [h0, pagesOf_zero L hL] at h
      omega
    have hP : P = pagesOf (l.length - L) L := by
      have := pagesOf_succ l.length L hL hlen
      omega
    have ihd := ih (l.drop L) (by rw [List.length_drop]; exact hP)
    rw [List.range_succ_eq_map, List.map_cons, List.map_map, List.flatten_cons]
    have hfun : ((fun k => (l.drop (k * L)).take L) ∘ Nat.succ)
        = fun k => ((l.drop L).drop (k * L)).take L := by
      funext k
      simp only [Function.comp_apply, List.drop_drop]
      congr 2
      rw [Nat.succ_mul, Nat.mul_comm, Nat.add_comm]
    rw [hfun, ihd]
    simp [List.take_append_drop]

/-! ### Sorting helpers -/

theorem insertSorted_perm {α : Type} (le : α → α → Bool) (a : α) :
    ∀ l : List α, (insertSorted le a l).Perm (a :: l)
  | [] => List.Perm.refl _
  | b :: l => by
    unfold insertSorted
    by_cases h : le a b = true
    · rw [if_pos h]
    · rw [if_neg h]
      exact ((insertSorted_perm le a l).cons b).trans (List.Perm.swap a b l)

theorem sortBy_perm {α : Type} (le : α → α → Bool) :
    ∀ l : List α, (sortBy le l).Perm l
  | [] => List.Perm.refl _
  | a :: l =>
    (insertSorted_perm le a (sortBy le l)).trans ((sortBy_perm le l).cons a)

theorem pairwise_insertSorted {α : Type} (le : α → α → Bool)
    (htrans : ∀ a b c, le a b = true → le b c = true → le a c = true)
    (htot : ∀ a b, (le a b || le b a) = true) (a : α) :
    ∀ l : List α, List.Pairwise (fun x y => le x y = true) l →
      List.Pairwise (fun x y => le x y = true) (insertSorted le a l)
  | [], _ => by simp [insertSorted]
  | b :: l, hp => by
    rcases List.pairwise_cons.mp hp with ⟨hb, hl⟩
    unfold insertSorted
    by_cases h : le a b = true
    · rw [if_pos h]
      refine List.pairwise_cons.mpr ⟨?_, hp⟩
      intro y hy
      rcases List.mem_cons.mp hy with rfl | hyl
      · exact h
      · exact htrans a b y h (hb y hyl)
    · rw [if_neg h]
      have hba : le b a = true := by
        have h2 : le a b = true ∨ le b a = true := by simpa using htot a b
        rcases h2 with hab | hba
        · exact absurd hab h
        · exact hba
      refine List.pairwise_cons.mpr ⟨?_, pairwise_insertSorted le htrans htot a l hl⟩
      intro y hy
      rcases List.mem_cons.mp ((insertSorted_perm le a l).mem_iff.mp hy) with rfl | hyl
      · exact hba
      · exact hb y hyl

theorem pairwise_sortBy {α : Type} (le : α → α → Bool)
    (htrans : ∀ a b c, le a b = true → le b c = true → le a c = true)
    (htot : ∀ a b, (le a b || le b a) = true) :
    ∀ l : List α, List.Pairwise (fun x y => le x y = true) (sortBy le l)
  | [] => by simp [sortBy]
  | a :: l =>
    pairwise_insertSorted le htrans htot a (sortBy le l)
      (pairwise_sortBy le htrans htot l)

/-! ### Slug-generation helpers -/

/-- The collapsed slug never puts two hyphens side by side. -/
def NoDashRun (a b : Char) : Prop := ¬(a = '-' ∧ b = '-')

theorem collapseDashes_head? : ∀ l : List Char, (collapseDashes l).head? = l.head?
  | [] => rfl
  | [_] => rfl
  | a :: b :: rest => by
    by_cases h : a = '-' ∧ b = '-'
    · have ih := collapseDashes_head? (b :: rest)
      simp only [collapseDashes, if_pos h] at ih ⊢
      rw [ih]
      simp [h.1, h.2]
    · simp [collapseDashes, if_neg h]

theorem collapseDashes_chain : ∀ l : List Char, List.Chain' NoDashRun (collapseDashes l)
  | [] => by simp [collapseDashes]
  | [_] => by simp [collapseDashes]
  | a :: b :: rest => by
    by_cases h : a = '-' ∧ b = '-'
    · simpa only [collapseDashes, if_pos h] using collapseDashes_chain (b :: rest)
    · have ih := collapseDashes_chain (b :: rest)
      have hh := collapseDashes_head? (b :: rest)
      simp only [collapseDashes, if_neg h]
      rw [List.chain'_cons']
      refine ⟨?_, ih⟩
      intro y hy
      rw [hh] at hy
      simp only [List.head?_cons, Option.mem_def, Option.some.injEq] at hy
      subst hy
      exact fun hc => h ⟨hc.1, hc.2⟩

theorem collapseDashes_sublist : ∀ l : List Char, (collapseDashes l).Sublist l
  | [] => by simp [collapseDashes]
  | [_] => by simp [collapseDashes]
  | a :: b :: rest => by
    by_cases h : a = '-' ∧ b = '-'
    · simp only [collapseDashes, if_pos h]
      exact (collapseDashes_sublist (b :: rest)).cons a
    · simp only [collapseDashes, if_neg h]
      exact (collapseDashes_sublist (b :: rest)).cons₂ a

theorem collapseDashes_filter : ∀ l : List Char,
    (collapseDashes l).filter isAlnumLower = l.filter isAlnumLower
  | [] => rfl
  | [_] => rfl
  | a :: b :: rest => by
    have ih := collapseDashes_filter (b :: rest)
    by_cases h : a = '-' ∧ b = '-'
    · have ha : isAlnumLower a = false := by rw [h.1]; rfl
      simp [collapseDashes, if_pos h, List.filter_cons, ih, ha]
    · simp [collapseDashes, if_neg h, List.filter_cons, ih]

theorem filter_map_dashify : ∀ l : List Char,
    ((l.map dashify).filter isAlnumLower) = l.filter isAlnumLower
  | [] => rfl
  | c :: rest => by
    have ih := filter_map_dashify rest
    cases hc : isAlnumLower c
    · have hd : isAlnumLower '-' = false := rfl
      simp [dashify, hc, List.filter_cons, ih, hd]
    · simp [dashify, hc, List.filter_cons, ih]

theorem dropLeadDash_filter (l : List Char) :
    (dropLeadDash l).filter isAlnumLower = l.filter isAlnumLower := by
  cases l with
  | nil => rfl
  | cons c rest =>
    by_cases hc : c = '-'
    · have hd : isAlnumLower '-' = false := rfl
      simp [dropLeadDash, hc, List.filter_cons, hd]
    · simp [dropLeadDash, hc]

theorem dropLeadDash_chain {R : Char → Char → Prop} {l : List Char}
    (h : List.Chain' R l) : List.Chain' R (dropLeadDash l) := by
  cases l with
  | nil => exact h
  | cons c rest =>
    by_cases hc : c = '-'
    · simpa [dropLeadDash, hc] using h.tail
    · simpa [dropLeadDash, hc] using h

theorem dropLeadDash_head?_ne (l : List Char) (h : List.Chain' NoDashRun l) :
    (dropLeadDash l).head? ≠ some '-' := by
  cases l with
  | nil => simp [dropLeadDash]
  | cons c rest =>
    by_cases hc : c = '-'
    · subst hc
      simp only [dropLeadDash, if_pos rfl]
      cases rest with
      | nil => simp
      | cons d rest' =>
        intro hd
        have hd' : d = '-' := by simpa using hd
        rw [List.chain'_cons] at h
        exact h.1 ⟨rfl, hd'⟩
    · simp only [dropLeadDash, if_neg hc]
      intro hd
      have hd' : c = '-' := by simpa using hd
      exact hc hd'

theorem dropLeadDash_getLast?_ne (l : List Char) (h : l.getLast? ≠ some '-') :
    (dropLeadDash l).getLast? ≠ some '-' := by
  cases l with
  | nil => simp [dropLeadDash]
  | cons c rest =>
    by_cases hc : c = '-'
    · simp only [dropLeadDash, if_pos hc]
      cases rest with
      | nil => simp
      | cons d rest' =>
        rw [List.getLast?_cons_cons] at h
        exact h
    · simpa [dropLeadDash, hc] using h

theorem dropLeadDash_sublist (l : List Char) : (dropLeadDash l).Sublist l := by
  cases l with
  | nil => simp [dropLeadDash]
  | cons c rest =>
    by_cases hc : c = '-'
    · simp only [dropLeadDash, if_pos hc]
      exact List.sublist_cons_self c rest
    · simp [dropLeadDash, hc]

theorem chain_noDashRun_reverse {l : List Char} (h : List.Chain' NoDashRun l) :
    List.Chain' NoDashRun l.reverse := by
  rw [List.chain'_reverse]
  exact h.imp (fun _ _ hab hc => hab ⟨hc.2, hc.1⟩)

theorem stripEdgeDashes_filter (l : List Char) :
    (stripEdgeDashes l).filter isAlnumLower = l.filter isAlnumLower := by
  unfold stripEdgeDashes
  rw [dropLeadDash_filter, List.filter_reverse, dropLeadDash_filter,
    List.filter_reverse, List.reverse_reverse]

theorem stripEdgeDashes_chain {l : List Char} (h : List.Chain' NoDashRun l) :
    List.Chain' NoDashRun (stripEdgeDashes l) :=
  dropLeadDash_chain (chain_noDashRun_reverse (dropLeadDash_chain (chain_noDashRun_reverse h)))

theorem stripEdgeDashes_head?_ne {l : List Char} (h : List.Chain' NoDashRun l) :
    (stripEdgeDashes l).head? ≠ some '-' :=
  dropLeadDash_head?_ne _ (chain_noDashRun_reverse (dropLeadDash_chain (chain_noDashRun_reverse h)))

theorem stripEdgeDashes_getLast?_ne {l : List Char} (h : List.Chain' NoDashRun l) :
    (stripEdgeDashes l).getLast? ≠ some '-' := by
  unfold stripEdgeDashes
  apply dropLeadDash_getLast?_ne
  rw [← List.head?_reverse, List.reverse_reverse]
  exact dropLeadDash_head?_ne _ (chain_noDashRun_reverse h)

theorem stripEdgeDashes_mem {x : Char} {l : List Char} (h : x ∈ stripEdgeDashes l) :
    x ∈ l := by
  unfold stripEdgeDashes at h
  have h1 := (dropLeadDash_sublist _).subset h
  rw [List.mem_reverse] at h1
  have h2 := (dropLeadDash_sublist _).subset h1
  rw [List.mem_reverse] at h2
  exact h2

/-! ### Like-toggle helpers -/

theorem mem_toggleLikes_self (l : List Nat) (u : Nat) :
    u ∈ toggleLikes l u ↔ u ∉ l := by
  unfold toggleLikes
  by_cases h : u ∈ l
  · rw [if_pos (by simpa using h)]
    simp [List.mem_filter, h]
  · rw [if_neg (by simpa using h)]
    simp [h]

theorem mem_toggleLikes_other (l : List Nat) (u v : Nat) (hvu : v ≠ u) :
    v ∈ toggleLikes l u ↔ v ∈ l := by
  unfold toggleLikes
  by_cases h : u ∈ l
  · rw [if_pos (by simpa using h)]
    simp [List.mem_filter, hvu]
  · rw [if_neg (by simpa using h)]
    simp [hvu]

theorem nodup_toggleLikes (l : List Nat) (u : Nat) (h : l.Nodup) :
    (toggleLikes l u).Nodup := by
  unfold toggleLikes
  by_cases hm : u ∈ l
  · rw [if_pos (by simpa using hm)]
    exact h.filter _
  · rw [if_neg (by simpa using hm)]
    rw [List.nodup_append]
    refine ⟨h, List.nodup_singleton u, ?_⟩
    intro a ha hau
    rw [List.mem_singleton] at hau
    exact hm (hau ▸ ha)

theorem filter_ne_of_not_mem (l : List Nat) (u : Nat) (h : u ∉ l) :
    l.filter (fun i => decide (i ≠ u)) = l := by
  apply List.filter_eq_self.mpr
  intro a ha
  simp only [decide_eq_true_eq]
  exact fun hau => h (hau ▸ ha)

theorem toggleLikes_of_not_mem (l : List Nat) (u : Nat) (h : u ∉ l) :
    toggleLikes l u = l ++ [u] := by
  unfold toggleLikes
  rw [if_neg (by simpa using h)]

theorem toggleLikes_of_mem (l : List Nat) (u : Nat) (h : u ∈ l) :
    toggleLikes l u = l.filter (fun i => decide (i ≠ u)) := by
  unfold toggleLikes
  rw [if_pos (by simpa using h)]

theorem toggleLikes_twice_of_not_mem (l : List Nat) (u : Nat) (h : u ∉ l) :
    toggleLikes (toggleLikes l u) u = l := by
  have h1 : toggleLikes l u = l ++ [u] := by
    unfold toggleLikes
    rw [if_neg (by simpa using h)]
  rw [h1]
  unfold toggleLikes
  rw [if_pos (by simp)]
  rw [List.filter_append]
  have h2 : ([u] : List Nat).filter (fun i => decide (i ≠ u)) = [] := by simp
  rw [h2, filter_ne_of_not_mem l u h, List.append_nil]

theorem length_toggleLikes_of_mem (l : List Nat) (u : Nat)
    (hnd : l.Nodup) (hm : u ∈ l) :
    (toggleLikes l u).length + 1 = l.length := by
  unfold toggleLikes
  rw [if_pos (by simpa using hm)]
  induction l with
  | nil => cases hm
  | cons a t ih =>
    rw [List.nodup_cons] at hnd
    by_cases ha : a = u
    · subst ha
      have hfe : t.filter (fun i => decide (i ≠ a)) = t := filter_ne_of_not_mem t a hnd.1
      have hfa : (decide (a ≠ a)) = false := by simp
      rw [List.filter_cons, hfa, if_neg (by simp), hfe, List.length_cons]
    · have hmt : u ∈ t := by
        rcases List.mem_cons.mp hm with h | h
        · exact absurd h.symm ha
        · exact h
      have hfa : (decide (a ≠ u)) = true := by simp [ha]
      rw [List.filter_cons, hfa, if_pos rfl, List.length_cons, List.length_cons]
      have := ih hnd.2 hmt
      omega

/-! ## Claim theorems -/

/-- C9 (confirmed): on save, the derived category slug is the name
lowercased with every maximal run of non-alphanumeric characters collapsed
to a single hyphen and the leading/trailing hyphen stripped, recomputed
exactly when the name changed.  Concretely, saving a category named
"Tech Notes!!" yields slug "tech-notes".  The general shape is captured by:
the slug keeps exactly the lowercased name's alphanumeric characters in
order, contains only lowercase alphanumerics and hyphens, never has two
adjacent hyphens, and neither starts nor ends with a hyphen. -/
theorem category_slug_spec :
    slugify "Tech Notes!!" = "tech-notes"
    ∧ (∀ (c : Category) (m : Bool),
        (saveCategory c m).slug = (if m then slugify c.name else c.slug)
        ∧ (saveCategory c m).name = c.name)
    ∧ (∀ name : String,
        (slugify name).data.filter isAlnumLower
            = (name.data.map Char.toLower).filter isAlnumLower
        ∧ (∀ x ∈ (slugify name).data, isAlnumLower x = true ∨ x = '-')
        ∧ List.Chain' NoDashRun (slugify name).data
        ∧ (slugify name).data.head? ≠ some '-'
        ∧ (slugify name).data.getLast? ≠ some '-') := by
  refine ⟨by decide, ?_, ?_⟩
  · intro c m
    cases m <;> simp [saveCategory]
  · intro name
    have hdata : (slugify name).data
        = stripEdgeDashes (collapseDashes ((name.data.map Char.toLower).map dashify)) := rfl
    refine ⟨?_, ?_, ?_, ?_, ?_⟩
    · rw [hdata, stripEdgeDashes_filter, collapseDashes_filter, filter_map_dashify]
    · intro x hx
      rw [hdata] at hx
      have h1 := stripEdgeDashes_mem hx
      have h2 := (collapseDashes_sublist _).subset h1
      rcases List.mem_map.mp h2 with ⟨c, _, hc⟩
      by_cases hcal : isAlnumLower c = true
      · left
        rw [← hc]
        simp [dashify, hcal]
      · right
        rw [← hc]
        simp [dashify, hcal]
    · rw [hdata]
      exact stripEdgeDashes_chain (collapseDashes_chain _)
    · rw [hdata]
      exact stripEdgeDashes_head?_ne (collapseDashes_chain _)
    · rw [hdata]
      exact stripEdgeDashes_getLast?_ne (collapseDashes_chain _)

/-- Witness for C9 at the concrete category name of the scenario. -/
theorem category_slug_spec_witness :
    isAlnumLower 't' = true ∨ 't' = '-' :=
  (category_slug_spec.2.2 "Tech Notes!!").2.1 't' (by decide)

/-- C3 (confirmed): because the posts router registers the parameterised
route before the literal one, a GET whose path is the single segment
"trending" dispatches to the single-post-by-id handler with the binding
id = "trending", and no path ever dispatches to the trending handler. -/
theorem trending_route_shadowed :
    dispatch postsGetRoutes ["trending"]
        = some (PostsHandler.getPostById, [("id", "trending")])
    ∧ ∀ (path : List String) (r : PostsHandler × List (String × String)),
        dispatch postsGetRoutes path = some r → r.1 ≠ PostsHandler.trendingPosts := by
  constructor
  · rfl
  · intro path r h
    match path with
    | [] =>
      simp only [postsGetRoutes, dispatch, matchSegs] at h
      obtain rfl : r = (PostsHandler.getPosts, []) := by
        cases h
        rfl
      simp
    | [a] =>
      simp only [postsGetRoutes, dispatch, matchSegs, Option.map_some] at h
      obtain rfl : r = (PostsHandler.getPostById, [("id", a)]) := by
        cases h
        rfl
      simp
    | a :: b :: rest =>
      simp only [postsGetRoutes, dispatch, matchSegs, Option.map_none] at h
      by_cases hca : "category" = a
      · rw [if_pos hca] at h
        cases rest with
        | nil =>
          simp only [matchSegs, Option.map_some] at h
          obtain rfl : r = (PostsHandler.getPostsByCategory, [("categoryId", b)]) := by
            cases h
            rfl
          simp
        | cons c rest' =>
          simp only [matchSegs, Option.map_none] at h
          rw [if_neg (by rw [← hca]; decide)] at h
          cases h
      · rw [if_neg hca] at h
        by_cases hta : "trending" = a
        · rw [if_pos hta] at h
          cases h
        · rw [if_neg hta] at h
          cases h

/-- Witness for C3: the theorem applied to the shadowing path itself. -/
theorem trending_route_shadowed_witness :
    (PostsHandler.getPostById, [("id", "trending")]).1 ≠ PostsHandler.trendingPosts :=
  trending_route_shadowed.2 ["trending"] (PostsHandler.getPostById, [("id", "trending")])
    trending_route_shadowed.1

/-- Concrete comment for the C4 counterexample: likes list [1, 2]. -/
def likesDemoComment : Comment :=
  { id := 0, text := "nice", post := 1, author := 1, parentComment := none
  , replies := [], likes := [1, 2], isApproved := true, isEdited := false
  , createdAt := 0 }

/-- Concrete database for the C4 counterexample. -/
def likesDemoDB : DB :=
  { posts := [], comments := [likesDemoComment], categories := [], users := []
  , nextCommentId := 1 }

/-- C4 counterexample: two successive like-toggles do not restore the
original likes list.  Toggling user 1 twice on a comment whose likes list is
[1, 2] leaves the list [2, 1]: the set and the count are restored, the list
is not. -/
theorem like_toggle_list_not_restored :
    ((likeComment (likeComment likesDemoDB 0 1).1 0 1).1.comments.map Comment.likes)
        = [[2, 1]]
    ∧ likesDemoComment.likes = [1, 2]
    ∧ ([2, 1] : List Nat) ≠ [1, 2] :=
  ⟨by decide, rfl, by decide⟩

/-- C4 (as amended): the like-toggle removes the principal from the likes
list when present and appends it otherwise; it reports the resulting count
and a now-liked flag equal to the negation of the prior membership; it
preserves per-user deduplication; like-unlike-like starting from a non-liker
lands on the original list plus that single like; and two successive
toggles restore the original likes count and membership — and the original
list itself whenever the user was not initially a liker (in general the
restored list may be reordered, see the counterexample). -/
theorem like_toggle_spec (db : DB) (c : Comment) (u : Nat)
    (hnd : (db.comments.map Comment.id).Nodup) (hc : c ∈ db.comments) :
    (likeComment db c.id u).2
        = LikeResult.ok (toggleLikes c.likes u).length (!(c.likes.contains u))
    ∧ { c with likes := toggleLikes c.likes u } ∈ (likeComment db c.id u).1.comments
    ∧ (u ∈ toggleLikes c.likes u ↔ u ∉ c.likes)
    ∧ (∀ v, v ≠ u → (v ∈ toggleLikes c.likes u ↔ v ∈ c.likes))
    ∧ (c.likes.Nodup → (toggleLikes c.likes u).Nodup)
    ∧ (c.likes.Nodup → u ∈ c.likes →
        (toggleLikes c.likes u).length + 1 = c.likes.length)
    ∧ (u ∉ c.likes →
        toggleLikes c.likes u = c.likes ++ [u]
        ∧ toggleLikes (toggleLikes c.likes u) u = c.likes
        ∧ toggleLikes (toggleLikes (toggleLikes c.likes u) u) u = c.likes ++ [u]
        ∧ (toggleLikes (toggleLikes (toggleLikes c.likes u) u) u).length
            = c.likes.length + 1)
    ∧ (c.likes.Nodup →
        (toggleLikes (toggleLikes c.likes u) u).length = c.likes.length
        ∧ ∀ v, v ∈ toggleLikes (toggleLikes c.likes u) u ↔ v ∈ c.likes) := by
  have hfind : db.comments.find? (fun y => decide (y.id = c.id)) = some c :=
    find?_key_of_mem Comment.id db.comments c hnd hc
  refine ⟨?_, ?_, mem_toggleLikes_self c.likes u, ?_, nodup_toggleLikes c.likes u,
    ?_, ?_, ?_⟩
  · unfold likeComment
    rw [hfind]
  · unfold likeComment
    rw [hfind]
    refine List.mem_map.mpr ⟨c, hc, ?_⟩
    rw [if_pos rfl]
  · intro v hvu
    exact mem_toggleLikes_other c.likes u v hvu
  · intro hn hm
    exact length_toggleLikes_of_mem c.likes u hn hm
  · intro hnm
    have h1 := toggleLikes_of_not_mem c.likes u hnm
    have h2 := toggleLikes_twice_of_not_mem c.likes u hnm
    refine ⟨h1, h2, ?_, ?_⟩
    · rw [h2]
      exact h1
    · rw [h2, h1, List.length_append, List.length_singleton]
  · intro hn
    by_cases hm : u ∈ c.likes
    · have h1 := toggleLikes_of_mem c.likes u hm
      have hnotin : u ∉ c.likes.filter (fun i => decide (i ≠ u)) := by
        intro hmem
        have hpred := (List.mem_filter.mp hmem).2
        simp at hpred
      have h2 : toggleLikes (toggleLikes c.likes u) u
          = c.likes.filter (fun i => decide (i ≠ u)) ++ [u] := by
        rw [h1]
        exact toggleLikes_of_not_mem _ u hnotin
      constructor
      · rw [h2, List.length_append, List.length_singleton]
        have h3 := length_toggleLikes_of_mem c.likes u hn hm
        rw [h1] at h3
        exact h3
      · intro v
        by_cases hvu : v = u
        · subst hvu
          rw [h2]
          simp [List.mem_append, hm]
        · rw [h2]
          simp [List.mem_append, List.mem_filter, hvu]
    · have h2 := toggleLikes_twice_of_not_mem c.likes u hm
      rw [h2]
      exact ⟨rfl, fun v => Iff.rfl⟩

/-- Witness for C4 on a concrete comment with likes [1, 2] and user 3. -/
theorem like_toggle_spec_witness :
    (likeComment likesDemoDB 0 3).2 = LikeResult.ok 3 true :=
  ((like_toggle_spec likesDemoDB likesDemoComment 3 (by decide) (by decide)).1).trans
    (by decide)

/-- Concrete draft post for the C1 counterexample. -/
def draftPost : Post :=
  { id := 1, title := "Hidden draft", content := "body", excerpt := ""
  , author := 1, category := 1, tags := [], featuredImage := ""
  , status := .draft, viewCount := 0, isFeatured := false, createdAt := 0 }

/-- Concrete database holding only a draft post, for the C1 counterexample. -/
def draftDB : DB :=
  { posts := [draftPost], comments := [], categories := [], users := []
  , nextCommentId := 0 }

/-- C1 counterexample: the public single-post fetch-by-id endpoint performs
no status filter — fetching a draft post by id succeeds and returns the
draft post (with its view count incremented), contradicting the claim that
the public fetch-by-id path never returns a post whose status is draft. -/
theorem get_post_by_id_returns_draft :
    (getPostById draftDB 1).2 = GetPostResult.ok { draftPost with viewCount := 1 }
    ∧ draftPost.status = Status.draft :=
  ⟨by decide, rfl⟩

/-- C1 (as amended): the public list endpoint and the list-by-category
endpoint only ever return posts with status published, for every database
state and every combination of query parameters; the fetch-by-id endpoint,
by contrast, returns the stored post whatever its status (see the
counterexample). -/
theorem public_listings_only_published (db : DB) (q : PostsQuery) :
    (∀ p ∈ (getPosts db q).2.posts, p.status = Status.published)
    ∧ (∀ (categoryId : Nat) (qpage qlimit : Option Nat) (cat : Category)
         (n : Nat) (pg : Pagination) (ps : List Post),
        getPostsByCategory db categoryId qpage qlimit
            = ByCategoryResult.ok cat n pg ps →
        ∀ p ∈ ps, p.status = Status.published) := by
  constructor
  · intro p hp
    simp only [getPosts, paginate] at hp
    have h1 : p ∈ sortBy byCreatedAtDesc (db.posts.filter (postQueryFilter db q)) :=
      (List.drop_sublist _ _).subset ((List.take_sublist _ _).subset hp)
    have h2 : p ∈ db.posts.filter (postQueryFilter db q) :=
      ((sortBy_perm _ _).mem_iff).mp h1
    have h3 := (List.mem_filter.mp h2).2
    simp only [postQueryFilter, Bool.and_eq_true, decide_eq_true_eq] at h3
    exact h3.1.1
  · intro categoryId qpage qlimit cat n pg ps hok p hp
    unfold getPostsByCategory at hok
    cases hfind : db.categories.find? (fun c => decide (c.id = categoryId)) with
    | none =>
      rw [hfind] at hok
      cases hok
    | some c0 =>
      rw [hfind] at hok
      injection hok with e1 e2 e3 e4
      rw [← e4] at hp
      simp only [paginate] at hp
      have h1 := (List.drop_sublist _ _).subset ((List.take_sublist _ _).subset hp)
      have h2 := ((sortBy_perm _ _).mem_iff).mp h1
      have h3 := (List.mem_filter.mp h2).2
      simp only [Bool.and_eq_true, decide_eq_true_eq] at h3
      exact h3.2

/-- Concrete published post for the C1 witness. -/
def publishedPost : Post :=
  { id := 2, title := "Visible", content := "body", excerpt := ""
  , author := 1, category := 1, tags := [], featuredImage := ""
  , status := .published, viewCount := 0, isFeatured := false, createdAt := 0 }

/-- Concrete database for the C1 witness. -/
def publishedDB : DB :=
  { posts := [publishedPost], comments := [], categories := [], users := []
  , nextCommentId := 0 }

/-- Query with no parameters supplied (all defaults). -/
def emptyPostsQuery : PostsQuery :=
  { page := none, limit := none, category := none, search := none }

/-- Witness for C1: the amended theorem applied to a concrete state in which
the listing actually returns a post. -/
theorem public_listings_only_published_witness :
    publishedPost.status = Status.published :=
  (public_listings_only_published publishedDB emptyPostsQuery).1 publishedPost (by decide)

/-- Unfolding of the fetch-by-id handler once the lookup has resolved. -/
theorem getPostById_eq (db : DB) (p : Post)
    (hfind : db.posts.find? (fun y => decide (y.id = p.id)) = some p) :
    (getPostById db p.id).1.posts
        = db.posts.map
            (fun q => if q.id = p.id then { p with viewCount := p.viewCount + 1 } else q)
    ∧ (getPostById db p.id).1.comments = db.comments
    ∧ (getPostById db p.id).1.categories = db.categories
    ∧ (getPostById db p.id).1.users = db.users
    ∧ (getPostById db p.id).2 = GetPostResult.ok { p with viewCount := p.viewCount + 1 } := by
  unfold getPostById
  rw [hfind]
  exact ⟨rfl, rfl, rfl, rfl, rfl⟩

/-- C6 (confirmed): fetching a stored post by id returns it with viewCount
incremented by exactly one and persists exactly that change — the post's
other fields, all other posts, and all other collections are untouched;
fetching it twice increments by exactly two; and the list endpoint never
writes to the state. -/
theorem view_count_increment (db : DB) (p : Post)
    (hnd : (db.posts.map Post.id).Nodup) (hp : p ∈ db.posts) :
    (getPostById db p.id).2 = GetPostResult.ok { p with viewCount := p.viewCount + 1 }
    ∧ { p with viewCount := p.viewCount + 1 } ∈ (getPostById db p.id).1.posts
    ∧ (∀ q ∈ db.posts, q.id ≠ p.id → q ∈ (getPostById db p.id).1.posts)
    ∧ (∀ q ∈ (getPostById db p.id).1.posts, q.id ≠ p.id → q ∈ db.posts)
    ∧ (getPostById db p.id).1.posts.length = db.posts.length
    ∧ (getPostById db p.id).1.comments = db.comments
    ∧ (getPostById db p.id).1.categories = db.categories
    ∧ (getPostById db p.id).1.users = db.users
    ∧ (getPostById (getPostById db p.id).1 p.id).2
        = GetPostResult.ok { p with viewCount := p.viewCount + 2 }
    ∧ (∀ q : PostsQuery, (getPosts db q).1 = db) := by
  have hfind : db.posts.find? (fun y => decide (y.id = p.id)) = some p :=
    find?_key_of_mem Post.id db.posts p hnd hp
  obtain ⟨hposts, hcomments, hcats, husers, hres⟩ := getPostById_eq db p hfind
  refine ⟨hres, ?_, ?_, ?_, ?_, hcomments, hcats, husers, ?_, fun _ => rfl⟩
  · rw [hposts]
    exact List.mem_map.mpr ⟨p, hp, by simp⟩
  · intro q hq hqid
    rw [hposts]
    exact List.mem_map.mpr ⟨q, hq, by simp [hqid]⟩
  · intro q hq hqid
    rw [hposts] at hq
    rcases List.mem_map.mp hq with ⟨y, hy, hyq⟩
    by_cases hyp : y.id = p.id
    · rw [if_pos hyp] at hyq
      exact absurd (by rw [← hyq]) hqid
    · rw [if_neg hyp] at hyq
      exact hyq ▸ hy
  · rw [hposts]
    exact List.length_map _ _
  · have hids : ((getPostById db p.id).1.posts.map Post.id) = db.posts.map Post.id := by
      rw [hposts, List.map_map]
      apply List.map_congr_left
      intro a _
      by_cases hb : a.id = p.id
      · simp [Function.comp, hb]
      · simp [Function.comp, hb]
    have hnd' : ((getPostById db p.id).1.posts.map Post.id).Nodup := by
      rw [hids]
      exact hnd
    have hp' : { p with viewCount := p.viewCount + 1 } ∈ (getPostById db p.id).1.posts := by
      rw [hposts]
      exact List.mem_map.mpr ⟨p, hp, by simp⟩
    have hfind2 : (getPostById db p.id).1.posts.find? (fun y => decide (y.id = p.id))
        = some { p with viewCount := p.viewCount + 1 } :=
      find?_key_of_mem Post.id _ _ hnd' hp'
    exact (getPostById_eq (getPostById db p.id).1
      { p with viewCount := p.viewCount + 1 } hfind2).2.2.2.2

/-- Concrete post for the C6 witness. -/
def viewDemoPost : Post :=
  { id := 7, title := "Counting views", content := "body", excerpt := ""
  , author := 1, category := 1, tags := [], featuredImage := ""
  , status := .published, viewCount := 40, isFeatured := false, createdAt := 0 }

/-- Concrete database for the C6 witness. -/
def viewDemoDB : DB :=
  { posts := [viewDemoPost], comments := [], categories := [], users := []
  , nextCommentId := 0 }

/-- Witness for C6: fetching post 7 twice takes its viewCount from 40 to 42. -/
theorem view_count_increment_witness :
    (getPostById (getPostById viewDemoDB 7).1 7).2
      = GetPostResult.ok { viewDemoPost with viewCount := 42 } :=
  (view_count_increment viewDemoDB viewDemoPost (by decide)
    (by decide)).2.2.2.2.2.2.2.2.1

/-- C5 (confirmed): deleting a comment pulls its id from exactly its
parent's replies list (and from none when it is top-level), removes only
the comment itself from the collection, and never cascades to the comment's
own replies — they remain stored, with parentComment still pointing at the
now-deleted comment. -/
theorem delete_comment_spec (db : DB) (c : Comment)
    (hnd : (db.comments.map Comment.id).Nodup) (hc : c ∈ db.comments) :
    (∀ d ∈ (deleteComment db c).comments, d.id ≠ c.id)
    ∧ (deleteComment db c).comments.length + 1 = db.comments.length
    ∧ (∀ d ∈ db.comments, d.id ≠ c.id → c.parentComment = some d.id →
        { d with replies := d.replies.filter (fun r => decide (r ≠ c.id)) }
          ∈ (deleteComment db c).comments)
    ∧ (∀ d ∈ db.comments, d.id ≠ c.id → c.parentComment ≠ some d.id →
        d ∈ (deleteComment db c).comments)
    ∧ (c.parentComment = none →
        (deleteComment db c).comments
          = db.comments.filter (fun d => decide (d.id ≠ c.id)))
    ∧ (∀ d ∈ db.comments, d.parentComment = some c.id → d.id ≠ c.id →
        ∃ d' ∈ (deleteComment db c).comments,
          d'.id = d.id ∧ d'.parentComment = some c.id ∧ d'.text = d.text)
    ∧ (deleteComment db c).posts = db.posts := by
  have hform : (deleteComment db c).comments
      = (match c.parentComment with
         | some pc =>
           db.comments.map
             (fun (d : Comment) =>
               if d.id = pc
               then { d with replies := d.replies.filter (fun r => decide (r ≠ c.id)) }
               else d)
         | none => db.comments).filter (fun d => decide (d.id ≠ c.id)) := rfl
  refine ⟨?_, ?_, ?_, ?_, ?_, ?_, rfl⟩
  · intro d hd
    rw [hform] at hd
    have := (List.mem_filter.mp hd).2
    simpa using this
  · rcases hpc : c.parentComment with _ | pc
    · rw [hform, hpc]
      exact length_filter_ne_key Comment.id db.comments c.id hnd
        (List.mem_map_of_mem Comment.id hc)
    · rw [hform, hpc]
      have hids : (db.comments.map
          (fun d =>
            if d.id = pc
            then { d with replies := d.replies.filter (fun r => decide (r ≠ c.id)) }
            else d)).map Comment.id = db.comments.map Comment.id := by
        rw [List.map_map]
        apply List.map_congr_left
        intro a _
        by_cases hb : a.id = pc
        · simp [Function.comp, hb]
        · simp [Function.comp, hb]
      have hnd2 := hids ▸ hnd
      have hmem2 := hids ▸ List.mem_map_of_mem Comment.id hc
      have hlen := length_filter_ne_key Comment.id _ c.id hnd2 hmem2
      rw [List.length_map] at hlen
      exact hlen
  · intro d hd hdid hpcd
    rw [hform, hpcd]
    refine List.mem_filter.mpr ⟨List.mem_map.mpr ⟨d, hd, by simp⟩, by simp [hdid]⟩
  · intro d hd hdid hnpcd
    rcases hpc : c.parentComment with _ | pc
    · rw [hform, hpc]
      exact List.mem_filter.mpr ⟨hd, by simp [hdid]⟩
    · rw [hform, hpc]
      have hdpc : d.id ≠ pc := by
        intro hdeq
        exact hnpcd (by rw [hpc, hdeq])
      refine List.mem_filter.mpr
        ⟨List.mem_map.mpr ⟨d, hd, by simp [hdpc]⟩, by simp [hdid]⟩
  · intro hpc
    rw [hform, hpc]
  · intro d hd hdparent hdid
    rcases hpc : c.parentComment with _ | pc
    · refine ⟨d, ?_, rfl, hdparent, rfl⟩
      rw [hform, hpc]
      exact List.mem_filter.mpr ⟨hd, by simp [hdid]⟩
    · by_cases hdpc : d.id = pc
      · refine ⟨{ d with replies := d.replies.filter (fun r => decide (r ≠ c.id)) },
          ?_, rfl, hdparent, rfl⟩
        rw [hform, hpc]
        refine List.mem_filter.mpr
          ⟨List.mem_map.mpr ⟨d, hd, by simp [hdpc]⟩, by simp [hdid]⟩
      · refine ⟨d, ?_, rfl, hdparent, rfl⟩
        rw [hform, hpc]
        refine List.mem_filter.mpr
          ⟨List.mem_map.mpr ⟨d, hd, by simp [hdpc]⟩, by simp [hdid]⟩

/-- Concrete top-level comment (holding one reply) for the C5 witness. -/
def delDemoParent : Comment :=
  { id := 0, text := "parent", post := 1, author := 1, parentComment := none
  , replies := [1], likes := [], isApproved := true, isEdited := false
  , createdAt := 0 }

/-- Concrete reply (itself holding a reply) for the C5 witness. -/
def delDemoChild : Comment :=
  { id := 1, text := "child", post := 1, author := 1, parentComment := some 0
  , replies := [2], likes := [], isApproved := true, isEdited := false
  , createdAt := 0 }

/-- Concrete reply-to-a-reply for the C5 witness. -/
def delDemoGrandchild : Comment :=
  { id := 2, text := "grandchild", post := 1, author := 1
  , parentComment := some 1, replies := [], likes := [], isApproved := true
  , isEdited := false, createdAt := 0 }

/-- Concrete database for the C5 witness. -/
def delDemoDB : DB :=
  { posts := [], comments := [delDemoParent, delDemoChild, delDemoGrandchild]
  , categories := [], users := [], nextCommentId := 3 }

/-- Witness for C5: after deleting the middle comment, its reply survives,
still pointing at the deleted comment. -/
theorem delete_comment_spec_witness :
    ∃ d' ∈ (deleteComment delDemoDB delDemoChild).comments,
      d'.id = delDemoGrandchild.id ∧ d'.parentComment = some delDemoChild.id
      ∧ d'.text = delDemoGrandchild.text :=
  (delete_comment_spec delDemoDB delDemoChild (by decide) (by decide)).2.2.2.2.2.1
    delDemoGrandchild (by decide) (by decide) (by decide)

/-- The trending comparator is transitive. -/
theorem trendingLe_trans (a b c : TrendingEntry)
    (hab : trendingLe a b = true) (hbc : trendingLe b c = true) :
    trendingLe a c = true := by
  simp only [trendingLe, Bool.or_eq_true, Bool.and_eq_true, decide_eq_true_eq] at *
  omega

/-- The trending comparator is total. -/
theorem trendingLe_total (a b : TrendingEntry) :
    (trendingLe a b || trendingLe b a) = true := by
  simp only [trendingLe, Bool.or_eq_true, Bool.and_eq_true, decide_eq_true_eq]
  omega

/-- The trending comparator, read back as a proposition. -/
theorem trendingLe_eq_true_iff (a b : TrendingEntry) :
    trendingLe a b = true
      ↔ (b.commentsCount < a.commentsCount
         ∨ (a.commentsCount = b.commentsCount
            ∧ b.post.viewCount ≤ a.post.viewCount)) := by
  simp [trendingLe]

/-- C2 (confirmed): the trending pipeline considers exactly the published
posts, joins each with its comments to obtain its comment count, sorts by
comment count descending with ties broken by view count descending, and
returns at most the top 5 entries of that order. -/
theorem trending_spec (db : DB) :
    (trendingPipeline db).length ≤ 5
    ∧ List.Pairwise
        (fun a b : TrendingEntry =>
          b.commentsCount < a.commentsCount
          ∨ (a.commentsCount = b.commentsCount
             ∧ b.post.viewCount ≤ a.post.viewCount))
        (trendingPipeline db)
    ∧ (∀ e ∈ trendingPipeline db,
        e.post.status = Status.published
        ∧ e.post ∈ db.posts
        ∧ e.commentsCount
            = (db.comments.filter (fun cm => decide (cm.post = e.post.id))).length)
    ∧ (∃ full : List TrendingEntry,
        full.Perm
          ((db.posts.filter (fun p => decide (p.status = Status.published))).map
            (fun (p : Post) => { post := p, commentsCount := (db.comments.filter (fun cm => decide (cm.post = p.id))).length }))
        ∧ List.Pairwise (fun a b => trendingLe a b = true) full
        ∧ trendingPipeline db = full.take 5) := by
  have hfulleq : trendingPipeline db
      = (sortBy trendingLe
          ((db.posts.filter (fun p => decide (p.status = Status.published))).map
            (fun (p : Post) => { post := p, commentsCount := (db.comments.filter (fun cm => decide (cm.post = p.id))).length }))).take 5 := rfl
  have hpw := pairwise_sortBy trendingLe trendingLe_trans trendingLe_total
    ((db.posts.filter (fun p => decide (p.status = Status.published))).map
      (fun (p : Post) => { post := p, commentsCount := (db.comments.filter (fun cm => decide (cm.post = p.id))).length }))
  refine ⟨?_, ?_, ?_, ?_⟩
  · rw [hfulleq]
    exact List.length_take_le _ _
  · have hsub : (trendingPipeline db).Sublist
        (sortBy trendingLe
          ((db.posts.filter (fun p => decide (p.status = Status.published))).map
            (fun (p : Post) => { post := p, commentsCount := (db.comments.filter (fun cm => decide (cm.post = p.id))).length }))) := by
      rw [hfulleq]
      exact List.take_sublist _ _
    have hpw5 := List.Pairwise.sublist hsub hpw
    exact hpw5.imp (fun h => (trendingLe_eq_true_iff _ _).mp h)
  · intro e he
    rw [hfulleq] at he
    have h1 := (List.take_sublist _ _).subset he
    have h2 := (sortBy_perm trendingLe _).mem_iff.mp h1
    rcases List.mem_map.mp h2 with ⟨p, hpmem, hpe⟩
    rcases List.mem_filter.mp hpmem with ⟨hpdb, hpub⟩
    subst hpe
    exact ⟨by simpa using hpub, hpdb, rfl⟩
  · refine ⟨sortBy trendingLe
      ((db.posts.filter (fun p => decide (p.status = Status.published))).map
        (fun (p : Post) => { post := p, commentsCount := (db.comments.filter (fun cm => decide (cm.post = p.id))).length })),
      sortBy_perm _ _, hpw, hfulleq⟩

/-- Concrete posts, comments and database for the C2 witness: two published
posts (ids 1 and 3) with 2 and 1 comments, one draft post (id 2). -/
def trendDemoPostA : Post :=
  { id := 1, title := "A", content := "body", excerpt := "", author := 1
  , category := 1, tags := [], featuredImage := "", status := .published
  , viewCount := 3, isFeatured := false, createdAt := 0 }

/-- Draft post, excluded from trending. -/
def trendDemoPostB : Post :=
  { id := 2, title := "B", content := "body", excerpt := "", author := 1
  , category := 1, tags := [], featuredImage := "", status := .draft
  , viewCount := 9, isFeatured := false, createdAt := 0 }

/-- Second published post. -/
def trendDemoPostC : Post :=
  { id := 3, title := "C", content := "body", excerpt := "", author := 1
  , category := 1, tags := [], featuredImage := "", status := .published
  , viewCount := 100, isFeatured := false, createdAt := 0 }

/-- A comment on the post with the given id. -/
def trendDemoComment (i postId : Nat) : Comment :=
  { id := i, text := "x", post := postId, author := 1, parentComment := none
  , replies := [], likes := [], isApproved := true, isEdited := false
  , createdAt := 0 }

/-- Concrete database for the C2 witness. -/
def trendDemoDB : DB :=
  { posts := [trendDemoPostA, trendDemoPostB, trendDemoPostC]
  , comments := [trendDemoComment 0 1, trendDemoComment 1 1, trendDemoComment 2 3]
  , categories := [], users := [], nextCommentId := 3 }

/-- Witness for C2: the pipeline entry for post 1 (2 comments) is published
and carries its exact comment count. -/
theorem trending_spec_witness :
    (⟨trendDemoPostA, 2⟩ : TrendingEntry).post.status = Status.published
    ∧ (⟨trendDemoPostA, 2⟩ : TrendingEntry).post ∈ trendDemoDB.posts
    ∧ (⟨trendDemoPostA, 2⟩ : TrendingEntry).commentsCount
        = (trendDemoDB.comments.filter
            (fun cm => decide (cm.post = (⟨trendDemoPostA, 2⟩ : TrendingEntry).post.id))).length :=
  (trending_spec trendDemoDB).2.2.1 ⟨trendDemoPostA, 2⟩ (by decide)

/-- C10 (confirmed; the guard itself is modelled from the spec, since
src/middleware/auth.js is not among the provided sources): a PUT on a post
by an authenticated principal who is neither the post's author nor an admin
answers forbidden and leaves the database unchanged, and a PUT on an absent
post answers not-found and leaves the database unchanged. -/
theorem update_post_authorization (db : DB) (u : PostUpdate)
    (principalId : Nat) (principalRole : String) (postId : Nat) :
    (db.posts.find? (fun p => decide (p.id = postId)) = none →
      updatePost db principalId principalRole postId u
        = (db, UpdatePostResult.notFound))
    ∧ (∀ p, db.posts.find? (fun q => decide (q.id = postId)) = some p →
        p.author ≠ principalId → principalRole ≠ "admin" →
        updatePost db principalId principalRole postId u
          = (db, UpdatePostResult.forbidden)) := by
  constructor
  · intro h
    have hauth : isAuthorPost db principalId principalRole postId = Authz.notFound := by
      unfold isAuthorPost
      rw [h]
    unfold updatePost
    rw [hauth]
  · intro p hp hna hnr
    have hauth : isAuthorPost db principalId principalRole postId = Authz.forbidden := by
      unfold isAuthorPost
      rw [hp]
      show (if p.author = principalId ∨ principalRole = "admin"
            then Authz.ok p else Authz.forbidden) = Authz.forbidden
      rw [if_neg (by simp [hna, hnr])]
    unfold updatePost
    rw [hauth]

/-- Concrete post owned by user 5, for the C10 witness. -/
def authDemoPost : Post :=
  { id := 4, title := "Owned", content := "body", excerpt := "", author := 5
  , category := 1, tags := [], featuredImage := "", status := .published
  , viewCount := 0, isFeatured := false, createdAt := 0 }

/-- Concrete database for the C10 witness. -/
def authDemoDB : DB :=
  { posts := [authDemoPost], comments := [], categories := [], users := []
  , nextCommentId := 0 }

/-- A PUT body supplying no fields. -/
def emptyPostUpdate : PostUpdate :=
  { title := none, content := none, excerpt := none, category := none
  , tags := none, featuredImage := none, status := none }

/-- Witness for C10: principal 6 with role user may not update post 4 owned
by user 5, and the state is returned unchanged. -/
theorem update_post_authorization_witness :
    updatePost authDemoDB 6 "user" 4 emptyPostUpdate
      = (authDemoDB, UpdatePostResult.forbidden) :=
  (update_post_authorization authDemoDB emptyPostUpdate 6 "user" 4).2 authDemoPost
    (by decide) (by decide) (by decide)

/-- The effective page/limit values are always positive: absent, zero and
defaulted values all land on a positive default. -/
theorem intOrDefault_pos (q : Option Nat) (d : Nat) (hd : 0 < d) :
    0 < intOrDefault q d := by
  unfold intOrDefault
  cases q with
  | none => exact hd
  | some n =>
    show 0 < if n = 0 then d else n
    by_cases hn : n = 0
    · rw [if_pos hn]
      exact hd
    · rw [if_neg hn]
      omega

/-- C8 (confirmed): listings are 1-indexed with defaults page=1 and
limit=10; the users listing reports the current page, ceil(T/L) pages and
the total T; the page count satisfies the ceiling characterisation
(T fits in `pages * L` and, when T > 0, not in `(pages-1) * L`); and the
pages, concatenated in order, are exactly the sorted dataset — a
permutation of the stored users, so their multiset union has size T with no
duplicates and no gaps.  The posts listing reports its pagination the same
way over its filtered dataset, whose pages partition it likewise. -/
theorem pagination_spec (db : DB) (qlimit : Option Nat) :
    (∀ qpage, (getUsers db qpage qlimit).pagination
        = { current := intOrDefault qpage 1
          , pages := pagesOf db.users.length (intOrDefault qlimit 10)
          , total := db.users.length })
    ∧ db.users.length
        ≤ pagesOf db.users.length (intOrDefault qlimit 10) * intOrDefault qlimit 10
    ∧ (0 < db.users.length →
        (pagesOf db.users.length (intOrDefault qlimit 10) - 1) * intOrDefault qlimit 10
          < db.users.length)
    ∧ ((List.range (pagesOf db.users.length (intOrDefault qlimit 10))).map
          (fun k => (getUsers db (some (k + 1)) qlimit).users)).flatten
        = sortBy byUserCreatedAtDesc db.users
    ∧ (((List.range (pagesOf db.users.length (intOrDefault qlimit 10))).map
          (fun k => (getUsers db (some (k + 1)) qlimit).users)).flatten).Perm db.users
    ∧ (∀ q : PostsQuery,
        (getPosts db q).2.pagination
          = { current := intOrDefault q.page 1
            , pages := pagesOf (db.posts.filter (postQueryFilter db q)).length
                (intOrDefault q.limit 10)
            , total := (db.posts.filter (postQueryFilter db q)).length }
        ∧ ((List.range (pagesOf (db.posts.filter (postQueryFilter db q)).length
              (intOrDefault q.limit 10))).map
              (fun k => (getPosts db { q with page := some (k + 1) }).2.posts)).flatten
            = sortBy byCreatedAtDesc (db.posts.filter (postQueryFilter db q))) := by
  have hL : 0 < intOrDefault qlimit 10 := intOrDefault_pos qlimit 10 (by omega)
  have husers : ∀ k : Nat, (getUsers db (some (k + 1)) qlimit).users
      = ((sortBy byUserCreatedAtDesc db.users).drop (k * intOrDefault qlimit 10)).take
          (intOrDefault qlimit 10) := by
    intro k
    show paginate (sortBy byUserCreatedAtDesc db.users) (intOrDefault (some (k + 1)) 1)
        (intOrDefault qlimit 10) = _
    have hpg : intOrDefault (some (k + 1)) 1 = k + 1 := by simp [intOrDefault]
    rw [hpg]
    unfold paginate
    rw [Nat.add_sub_cancel]
  have hulen : (sortBy byUserCreatedAtDesc db.users).length = db.users.length :=
    (sortBy_perm _ _).length_eq
  have huflat : ((List.range (pagesOf db.users.length (intOrDefault qlimit 10))).map
        (fun k => (getUsers db (some (k + 1)) qlimit).users)).flatten
      = sortBy byUserCreatedAtDesc db.users := by
    have hmap := List.map_congr_left
      (fun k (_ : k ∈ List.range (pagesOf db.users.length (intOrDefault qlimit 10))) =>
        husers k)
    rw [hmap]
    exact flatten_paginate (intOrDefault qlimit 10) hL _ _ (by rw [hulen])
  refine ⟨fun _ => rfl, le_pagesOf_mul _ _ hL, pagesOf_pred_mul_lt _ _ hL, huflat, ?_, ?_⟩
  · rw [huflat]
    exact sortBy_perm _ _
  · intro q
    have hLq : 0 < intOrDefault q.limit 10 := intOrDefault_pos q.limit 10 (by omega)
    refine ⟨rfl, ?_⟩
    have hposts : ∀ k : Nat, (getPosts db { q with page := some (k + 1) }).2.posts
        = ((sortBy byCreatedAtDesc (db.posts.filter (postQueryFilter db q))).drop
            (k * intOrDefault q.limit 10)).take (intOrDefault q.limit 10) := by
      intro k
      show paginate (sortBy byCreatedAtDesc (db.posts.filter (postQueryFilter db q)))
          (intOrDefault (some (k + 1)) 1) (intOrDefault q.limit 10) = _
      have hpg : intOrDefault (some (k + 1)) 1 = k + 1 := by simp [intOrDefault]
      rw [hpg]
      unfold paginate
      rw [Nat.add_sub_cancel]
    have hplen : (sortBy byCreatedAtDesc (db.posts.filter (postQueryFilter db q))).length
        = (db.posts.filter (postQueryFilter db q)).length :=
      (sortBy_perm _ _).length_eq
    have hmap := List.map_congr_left
      (fun k (_ : k ∈ List.range (pagesOf (db.posts.filter (postQueryFilter db q)).length
        (intOrDefault q.limit 10))) => hposts k)
    rw [hmap]
    exact flatten_paginate (intOrDefault q.limit 10) hLq _ _ (by rw [hplen])

/-- Concrete user for the C8 witness. -/
def pageDemoUser : User :=
  { id := 1, name := "u", email := "u@example.com", role := "user", bio := ""
  , avatar := "", isActive := true, createdAt := 0 }

/-- Concrete database for the C8 witness. -/
def pageDemoDB : DB :=
  { posts := [], comments := [], categories := [], users := [pageDemoUser]
  , nextCommentId := 0 }

/-- Witness for C8: with one stored user and the default limit, the single
page is needed (the ceiling characterisation at T = 1). -/
theorem pagination_spec_witness :
    (pagesOf pageDemoDB.users.length (intOrDefault none 10) - 1)
        * intOrDefault none 10
      < pageDemoDB.users.length :=
  (pagination_spec pageDemoDB none).2.2.1 (by decide)

/-- One comment-router operation preserves the comment-store invariant:
ids stay below the allocator and every parent pointer keeps pointing to a
strictly smaller id. -/
theorem commentInv_step {db db' : DB} (hinv : CommentInv db)
    (hstep : CommentStep db db') : CommentInv db' := by
  cases hstep with
  | create text postId authorId parent =>
    unfold createComment
    cases hfp : db.posts.find? (fun p => decide (p.id = postId)) with
    | none => exact hinv
    | some p0 =>
      rcases parent with _ | pc
      · dsimp only [CommentInv]
        intro x hx
        rcases List.mem_append.mp hx with hold | hnew
        · rcases hinv x hold with ⟨hlt, hpar⟩
          exact ⟨by omega, hpar⟩
        · rw [List.mem_singleton] at hnew
          subst hnew
          refine ⟨Nat.lt_succ_self db.nextCommentId, ?_⟩
          intro q hq
          cases hq
      · dsimp only [CommentInv]
        cases hfc : db.comments.find? (fun d => decide (d.id = pc)) with
        | none => exact hinv
        | some d0 =>
          dsimp only
          intro x hx
          rcases List.mem_map.mp hx with ⟨y, hy, hyx⟩
          have hyinv : y.id < db.nextCommentId + 1
              ∧ ∀ q, y.parentComment = some q → q < y.id := by
            rcases List.mem_append.mp hy with hold | hnew
            · rcases hinv y hold with ⟨hlt, hpar⟩
              exact ⟨by omega, hpar⟩
            · rw [List.mem_singleton] at hnew
              subst hnew
              refine ⟨Nat.lt_succ_self db.nextCommentId, ?_⟩
              intro q hq
              cases hq
              show pc < db.nextCommentId
              have hd0id : d0.id = pc := by simpa using List.find?_some hfc
              rcases hinv d0 (List.mem_of_find?_eq_some hfc) with ⟨hlt0, _⟩
              omega
          by_cases hb : y.id = pc
          · rw [if_pos hb] at hyx
            subst hyx
            exact hyinv
          · rw [if_neg hb] at hyx
            subst hyx
            exact hyinv
  | update c text h =>
    dsimp only [CommentInv, updateComment]
    intro x hx
    rcases List.mem_map.mp hx with ⟨y, hy, hyx⟩
    by_cases hb : y.id = c.id
    · rw [if_pos hb] at hyx
      subst hyx
      exact hinv c h
    · rw [if_neg hb] at hyx
      subst hyx
      exact hinv y hy
  | delete c h =>
    dsimp only [CommentInv, deleteComment]
    intro x hx
    have hx' := (List.mem_filter.mp hx).1
    rcases hpc : c.parentComment with _ | pc
    · rw [hpc] at hx'
      exact hinv x hx'
    · rw [hpc] at hx'
      dsimp only at hx'
      rcases List.mem_map.mp hx' with ⟨y, hy, hyx⟩
      by_cases hb : y.id = pc
      · rw [if_pos hb] at hyx
        subst hyx
        exact hinv y hy
      · rw [if_neg hb] at hyx
        subst hyx
        exact hinv y hy
  | like commentId userId =>
    unfold likeComment
    cases hfc : db.comments.find? (fun c => decide (c.id = commentId)) with
    | none => exact hinv
    | some c0 =>
      dsimp only [CommentInv]
      intro x hx
      rcases List.mem_map.mp hx with ⟨y, hy, hyx⟩
      by_cases hb : y.id = c0.id
      · rw [if_pos hb] at hyx
        subst hyx
        exact hinv c0 (List.mem_of_find?_eq_some hfc)
      · rw [if_neg hb] at hyx
        subst hyx
        exact hinv y hy
  | approve commentId b =>
    unfold approveComment
    cases hfc : db.comments.find? (fun c => decide (c.id = commentId)) with
    | none => exact hinv
    | some c0 =>
      dsimp only [CommentInv]
      intro x hx
      rcases List.mem_map.mp hx with ⟨y, hy, hyx⟩
      by_cases hb : y.id = c0.id
      · rw [if_pos hb] at hyx
        subst hyx
        exact hinv c0 (List.mem_of_find?_eq_some hfc)
      · rw [if_neg hb] at hyx
        subst hyx
        exact hinv y hy

/-- Under the invariant, parent pointers strictly decrease ids. -/
theorem parentOf_lt {db : DB} (hinv : CommentInv db) {i p : Nat}
    (hp : parentOf db i = some p) : p < i := by
  unfold parentOf at hp
  cases hfc : db.comments.find? (fun c => decide (c.id = i)) with
  | none =>
    rw [hfc] at hp
    cases hp
  | some c0 =>
    rw [hfc] at hp
    have hc0id : c0.id = i := by simpa using List.find?_some hfc
    rcases hinv c0 (List.mem_of_find?_eq_some hfc) with ⟨_, hpar⟩
    have hlt := hpar p hp
    omega

/-- Under the invariant, ancestors have strictly smaller ids. -/
theorem commentAncestor_lt {db : DB} (hinv : CommentInv db) {a i : Nat}
    (h : commentAncestor db a i) : a < i := by
  induction h with
  | parent hp => exact parentOf_lt hinv hp
  | step hp _ ih => exact lt_trans ih (parentOf_lt hinv hp)

/-- C7 (confirmed): in every database state reachable from a comment-free
state by the comment operations (create, update, delete, like-toggle,
approve), the parentComment pointers are acyclic — no comment is its own
ancestor — because creation only ever points a new comment at an
already-existing comment, and no operation rewrites parentComment
afterwards. -/
theorem comment_tree_acyclic (db0 db : DB) (h0 : db0.comments = [])
    (hsteps : Relation.ReflTransGen CommentStep db0 db) :
    ∀ c ∈ db.comments, ¬ commentAncestor db c.id c.id := by
  have hinv : CommentInv db := by
    induction hsteps with
    | refl =>
      intro c hcmem
      rw [h0] at hcmem
      cases hcmem
    | tail hsteps hstep ih => exact commentInv_step ih hstep
  intro c hcmem hanc
  have := commentAncestor_lt hinv hanc
  omega

/-- Concrete post for the C7 witness. -/
def treeDemoPost : Post :=
  { id := 1, title := "Post", content := "body", excerpt := "", author := 1
  , category := 1, tags := [], featuredImage := "", status := .published
  , viewCount := 0, isFeatured := false, createdAt := 0 }

/-- Concrete comment-free initial state for the C7 witness. -/
def treeDemoDB0 : DB :=
  { posts := [treeDemoPost], comments := [], categories := [], users := []
  , nextCommentId := 0 }

/-- Witness for C7: after one create step from the empty comment store, the
created comment is not its own ancestor. -/
theorem comment_tree_acyclic_witness :
    ¬ commentAncestor (createComment treeDemoDB0 "hello" 1 1 none).1 0 0 :=
  comment_tree_acyclic treeDemoDB0 (createComment treeDemoDB0 "hello" 1 1 none).1
    rfl (Relation.ReflTransGen.single (CommentStep.create treeDemoDB0 "hello" 1 1 none))
    { id := 0, text := "hello", post := 1, author := 1, parentComment := none
    , replies := [], likes := [], isApproved := true, isEdited := false
    , createdAt := 0 }
    (by decide)

end Blog
